import Mathlib

/-!
Shallow embedding of the Game of Life engine (`src/engine.rs`).

The Rust code stores cell states in an `nalgebra::DMatrix<CellState>`;
here a grid is its pair of dimensions together with a total content
function.  Operations that can panic in Rust (matrix indexing with an
out-of-range coordinate) are embedded as `Option`-returning functions:
`none` models the panic, `some` the normal return.  Machine integers
(`usize`, `isize`) are embedded as `Nat` and `Int`; the Rust `%` on
`isize` is truncated remainder, embedded as `Int.tmod` (every claim
keeps the divisor positive, matching the domain on which the engine
calls it).
-/

namespace GameOfLifeEngine

/-- The two-valued cell state, from `enum CellState` in `engine.rs`. -/
inductive CellState where
  | Alive : CellState
  | Dead : CellState
deriving DecidableEq, Repr

/-- `pub type Cell = (usize, usize)`: a (row, column) coordinate. -/
abbrev Cell := Nat × Nat

/-- `pub struct GameMatrix(DMatrix<CellState>)`: a dense rows × columns
grid, embedded as its shape plus a total content function. -/
structure GameMatrix where
  rows : Nat
  columns : Nat
  data : Nat → Nat → CellState

/-- `GameMatrix::shape`, which returns `self.0.shape()` = (rows, columns). -/
def GameMatrix.shape (m : GameMatrix) : Nat × Nat := (m.rows, m.columns)

/-- `GameMatrix::new(rows, columns)`: `DMatrix::from_element(rows, columns, Dead)`,
an all-Dead grid of the requested shape (zero dimensions are accepted by
`from_element` and produce an empty matrix). -/
def GameMatrix.new (rows columns : Nat) : GameMatrix :=
  ⟨rows, columns, fun _ _ => CellState.Dead⟩

/-- `GameMatrix::get_state`: `&self.0[cell]`.  `DMatrix` indexing is
strict-bounds; an out-of-range coordinate panics, modelled as `none`. -/
def GameMatrix.get_state (m : GameMatrix) (cell : Cell) : Option CellState :=
  if cell.1 < m.rows ∧ cell.2 < m.columns then some (m.data cell.1 cell.2) else none

/-- `GameMatrix::set_state`: `self.0[cell] = state`.  Same strict-bounds
indexing; `none` models the out-of-range panic. -/
def GameMatrix.set_state (m : GameMatrix) (cell : Cell) (state : CellState) :
    Option GameMatrix :=
  if cell.1 < m.rows ∧ cell.2 < m.columns then
    some { m with data := fun i j => if i = cell.1 ∧ j = cell.2 then state else m.data i j }
  else none

/-- `GameMatrix::kill_em_all`: overwrite every stored element with `Dead`. -/
def GameMatrix.kill_em_all (m : GameMatrix) : GameMatrix :=
  { m with data := fun _ _ => CellState.Dead }

/-- `get_offset(position, offset, cells)`:
`(((position as isize + offset) + cells as isize) % cells as isize) as usize`.
Rust `%` on `isize` is truncated remainder (`Int.tmod`). -/
def get_offset (position : Nat) (offset : Int) (cells : Nat) : Nat :=
  ((((position : Int) + offset) + (cells : Int)).tmod (cells : Int)).toNat

/-- `get_neighbor_cells(cell, shape)`: the double loop
`for row_offset in -1..=1 { for column_offset in -1..=1 { ... } }`,
pushing the wrapped coordinate for every offset pair except (0, 0),
in that exact enumeration order. -/
def get_neighbor_cells (cell : Cell) (shape : Nat × Nat) : List Cell :=
  let (row_count, column_count) := shape
  let (row, column) := cell
  (([-1, 0, 1] : List Int)).flatMap fun row_offset =>
    (([-1, 0, 1] : List Int)).filterMap fun column_offset =>
      if row_offset = 0 ∧ column_offset = 0 then none
      else some (get_offset row row_offset row_count,
                 get_offset column column_offset column_count)

/-- `GameMatrix::get_next_state`: count the Alive states among the 8
toroidal neighbor cells, then apply the B3/S23 rule to the cell's own
state.  Each `get_state` call can panic (out-of-range), hence the
`Option` plumbing; evaluation order follows the source (the neighbor
reads happen before the read of the cell itself). -/
def GameMatrix.get_next_state (m : GameMatrix) (cell : Cell) : Option CellState := do
  let neighbor_states ← (get_neighbor_cells cell m.shape).mapM m.get_state
  let alive_neighbors := (neighbor_states.filter (fun s => s == CellState.Alive)).length
  let state ← m.get_state cell
  match state with
  | CellState.Alive =>
      pure (if 2 ≤ alive_neighbors ∧ alive_neighbors ≤ 3
            then CellState.Alive else CellState.Dead)
  | CellState.Dead =>
      pure (if alive_neighbors = 3 then CellState.Alive else CellState.Dead)

/-- The free-standing helper `get_alive_neighbor_count(matrix, cell)`,
which duplicates the counting pipeline inside `get_next_state`. -/
def get_alive_neighbor_count (matrix : GameMatrix) (cell : Cell) : Option Nat := do
  let states ← (get_neighbor_cells cell matrix.shape).mapM matrix.get_state
  pure ((states.filter (fun s => s == CellState.Alive)).length)

/-- `pub struct GameOfLife { previous: GameMatrix, current: GameMatrix }`. -/
structure GameOfLife where
  previous : GameMatrix
  current : GameMatrix

/-- `GameOfLife::new(rows, columns)`: two fresh all-Dead grids. -/
def GameOfLife.new (rows columns : Nat) : GameOfLife :=
  ⟨GameMatrix.new rows columns, GameMatrix.new rows columns⟩

/-- `GameOfLife::shape`: `self.current.0.shape()`. -/
def GameOfLife.shape (g : GameOfLife) : Nat × Nat := g.current.shape

/-- `GameOfLife::kill_em_all`: clear both buffers. -/
def GameOfLife.kill_em_all (g : GameOfLife) : GameOfLife :=
  ⟨g.previous.kill_em_all, g.current.kill_em_all⟩

/-- One iteration of the body of the double loop in `GameOfLife::tick`:
`let new_state = self.previous.get_next_state(cell); self.current.set_state(cell, new_state)`. -/
def tickCell (previous current : GameMatrix) (cell : Cell) : Option GameMatrix := do
  let new_state ← previous.get_next_state cell
  current.set_state cell new_state

/-- The double loop of `GameOfLife::tick`:
`for row in 0..rows { for column in 0..columns { ... } }`, threading the
`current` buffer through each in-place write. -/
def tickLoop (previous current : GameMatrix) (rows columns : Nat) : Option GameMatrix :=
  (List.range rows).foldlM (fun cur row =>
    (List.range columns).foldlM (fun cur column =>
      tickCell previous cur (row, column)) cur) current

/-- `GameOfLife::tick`: swap the two buffers (ownership exchange), then
recompute every cell of the new `current` from the new `previous`.  The
loop bounds come from `self.shape()`, read after the swap, i.e. from the
grid that was `previous` before the call. -/
def GameOfLife.tick (g : GameOfLife) : Option GameOfLife := do
  let previous := g.current
  let current := g.previous
  let (rows, columns) := current.shape
  let current ← tickLoop previous current rows columns
  pure ⟨previous, current⟩

/-- Iterated `tick`: `ticksN g n` performs `n` consecutive `tick()` calls. -/
def ticksN (g : GameOfLife) : Nat → Option GameOfLife
  | 0 => some g
  | n + 1 => (ticksN g n).bind GameOfLife.tick

/-- Specification-level alive-neighbor count: the number of `Alive`
entries the grid holds at the 8 (wrapped) neighbor coordinates.  Stated
over the total content function; it agrees with the `Option`-plumbed
code paths on in-range cells. -/
def aliveNeighborCount (m : GameMatrix) (cell : Cell) : Nat :=
  (((get_neighbor_cells cell m.shape).map (fun c => m.data c.1 c.2)).filter
    (fun s => s == CellState.Alive)).length

/-- Specification-level next state: the B3/S23 rule applied to the
cell's stored state and its alive-neighbor count. -/
def nextVal (m : GameMatrix) (cell : Cell) : CellState :=
  match m.data cell.1 cell.2 with
  | CellState.Alive =>
      if 2 ≤ aliveNeighborCount m cell ∧ aliveNeighborCount m cell ≤ 3
      then CellState.Alive else CellState.Dead
  | CellState.Dead =>
      if aliveNeighborCount m cell = 3 then CellState.Alive else CellState.Dead

/-- Every in-range cell of the grid is Dead. -/
def AllDead (m : GameMatrix) : Prop :=
  ∀ i, i < m.rows → ∀ j, j < m.columns → m.data i j = CellState.Dead

instance (m : GameMatrix) : Decidable (AllDead m) := by
  unfold AllDead; infer_instance

/-- The fixed offset enumeration order pinned by the spec: row offset
outer over {-1, 0, 1}, column offset inner over {-1, 0, 1}, skipping (0, 0). -/
def neighborOffsets : List (Int × Int) :=
  [(-1, -1), (-1, 0), (-1, 1), (0, -1), (0, 1), (1, -1), (1, 0), (1, 1)]

/-! ### Arithmetic facts about `get_offset` -/

theorem get_offset_eq_emod (position : Nat) (offset : Int) (cells : Nat)
    (hc : 1 ≤ cells) (ho : -1 ≤ offset) :
    (get_offset position offset cells : Int) =
      ((position : Int) + offset + (cells : Int)) % (cells : Int) := by
  unfold get_offset
  have hcast : (1 : Int) ≤ (cells : Int) := by exact_mod_cast hc
  have hp : (0 : Int) ≤ (position : Int) := Int.natCast_nonneg _
  have h0 : (0 : Int) ≤ (position : Int) + offset + (cells : Int) := by omega
  rw [Int.tmod_eq_emod h0 (by omega)]
  exact Int.toNat_of_nonneg (Int.emod_nonneg _ (by omega))

theorem get_offset_lt (position : Nat) (offset : Int) (cells : Nat)
    (hc : 1 ≤ cells) (ho : -1 ≤ offset) :
    get_offset position offset cells < cells := by
  have h := get_offset_eq_emod position offset cells hc ho
  have hpos : (0 : Int) < (cells : Int) := by exact_mod_cast hc
  have hlt := Int.emod_lt_of_pos ((position : Int) + offset + (cells : Int)) hpos
  omega

theorem get_offset_zero (position cells : Nat) (h : position < cells) :
    get_offset position 0 cells = position := by
  have h1 := get_offset_eq_emod position 0 cells (by omega) (by omega)
  have h2 : ((position : Int) + 0 + (cells : Int)) % (cells : Int) = (position : Int) := by
    have hrw : ((position : Int) + 0 + (cells : Int)) = (position : Int) + 1 * (cells : Int) := by
      ring
    rw [hrw, Int.add_mul_emod_self]
    exact Int.emod_eq_of_lt (by omega) (by exact_mod_cast h)
  omega

theorem get_offset_inj (position cells : Nat) (o1 o2 : Int) (hc : 3 ≤ cells)
    (h11 : -1 ≤ o1) (h12 : o1 ≤ 1) (h21 : -1 ≤ o2) (h22 : o2 ≤ 1)
    (heq : get_offset position o1 cells = get_offset position o2 cells) : o1 = o2 := by
  have e1 := get_offset_eq_emod position o1 cells (by omega) h11
  have e2 := get_offset_eq_emod position o2 cells (by omega) h21
  have hmod : ((position : Int) + o1 + (cells : Int)) % (cells : Int) =
      ((position : Int) + o2 + (cells : Int)) % (cells : Int) := by
    rw [← e1, ← e2]
    exact_mod_cast congrArg (fun n : Nat => (n : Int)) heq
  have hsub := Int.emod_eq_emod_iff_emod_sub_eq_zero.mp hmod
  have hdiff : ((position : Int) + o1 + (cells : Int)) -
      ((position : Int) + o2 + (cells : Int)) = o1 - o2 := by ring
  rw [hdiff] at hsub
  have hdvd := Int.dvd_of_emod_eq_zero hsub
  have hcast : (3 : Int) ≤ (cells : Int) := by exact_mod_cast hc
  have habs : |o1 - o2| < (cells : Int) := by
    rw [abs_lt]; constructor <;> omega
  have := Int.eq_zero_of_abs_lt_dvd hdvd habs
  omega

/-! ### Geometry of the neighbor list -/

theorem get_neighbor_cells_eq_map (cell : Cell) (shape : Nat × Nat) :
    get_neighbor_cells cell shape =
      neighborOffsets.map (fun o =>
        (get_offset cell.1 o.1 shape.1, get_offset cell.2 o.2 shape.2)) := by
  obtain ⟨r, c⟩ := cell
  obtain ⟨R, C⟩ := shape
  rfl

theorem neighborOffsets_bounds :
    ∀ o ∈ neighborOffsets, -1 ≤ o.1 ∧ o.1 ≤ 1 ∧ -1 ≤ o.2 ∧ o.2 ≤ 1 := by decide

theorem mem_get_neighbor_cells (cell : Cell) (R C : Nat) (hR : 1 ≤ R) (hC : 1 ≤ C) :
    ∀ p ∈ get_neighbor_cells cell (R, C), p.1 < R ∧ p.2 < C := by
  intro p hp
  rw [get_neighbor_cells_eq_map] at hp
  simp only [List.mem_map] at hp
  obtain ⟨o, ho, rfl⟩ := hp
  obtain ⟨hb1, _, hb3, _⟩ := neighborOffsets_bounds o ho
  exact ⟨get_offset_lt _ _ _ hR hb1, get_offset_lt _ _ _ hC hb3⟩

/-! ### Reads on in-range coordinates -/

theorem get_state_of_lt (m : GameMatrix) (cell : Cell)
    (h1 : cell.1 < m.rows) (h2 : cell.2 < m.columns) :
    m.get_state cell = some (m.data cell.1 cell.2) := by
  unfold GameMatrix.get_state
  rw [if_pos ⟨h1, h2⟩]

theorem mapM_get_state (m : GameMatrix) :
    ∀ l : List Cell, (∀ p ∈ l, p.1 < m.rows ∧ p.2 < m.columns) →
      l.mapM m.get_state = some (l.map fun p => m.data p.1 p.2) := by
  intro l
  induction l with
  | nil => intro _; rfl
  | cons a l ih =>
      intro h
      rw [List.mapM_cons, get_state_of_lt m a (h a (by simp)).1 (h a (by simp)).2,
          ih (fun p hp => h p (by simp [hp]))]
      rfl

theorem get_next_state_eq (m : GameMatrix) (cell : Cell)
    (h1 : cell.1 < m.rows) (h2 : cell.2 < m.columns) :
    m.get_next_state cell = some (nextVal m cell) := by
  have hmem : ∀ p ∈ get_neighbor_cells cell m.shape, p.1 < m.rows ∧ p.2 < m.columns := by
    have := mem_get_neighbor_cells cell m.rows m.columns (by omega) (by omega)
    simpa [GameMatrix.shape] using this
  unfold GameMatrix.get_next_state
  rw [mapM_get_state m _ hmem, get_state_of_lt m cell h1 h2]
  unfold nextVal aliveNeighborCount
  cases hm : m.data cell.1 cell.2 <;> simp [hm, Option.bind]

theorem get_alive_neighbor_count_eq (m : GameMatrix) (cell : Cell)
    (h1 : cell.1 < m.rows) (h2 : cell.2 < m.columns) :
    get_alive_neighbor_count m cell = some (aliveNeighborCount m cell) := by
  have hmem : ∀ p ∈ get_neighbor_cells cell m.shape, p.1 < m.rows ∧ p.2 < m.columns := by
    have := mem_get_neighbor_cells cell m.rows m.columns (by omega) (by omega)
    simpa [GameMatrix.shape] using this
  unfold get_alive_neighbor_count
  rw [mapM_get_state m _ hmem]
  unfold aliveNeighborCount
  rfl

theorem set_state_of_lt (m : GameMatrix) (cell : Cell) (s : CellState)
    (h1 : cell.1 < m.rows) (h2 : cell.2 < m.columns) :
    m.set_state cell s = some
      { m with data := fun i j => if i = cell.1 ∧ j = cell.2 then s else m.data i j } := by
  unfold GameMatrix.set_state
  rw [if_pos ⟨h1, h2⟩]

/-! ### The tick loops -/

theorem tickRowLoop_spec (prev : GameMatrix) (row : Nat) (hrp : row < prev.rows) :
    ∀ columns (cur : GameMatrix), columns ≤ prev.columns →
      row < cur.rows → columns ≤ cur.columns →
      ∃ cur2, (List.range columns).foldlM
          (fun cur column => tickCell prev cur (row, column)) cur = some cur2 ∧
        cur2.rows = cur.rows ∧ cur2.columns = cur.columns ∧
        ∀ i j, cur2.data i j =
          if i = row ∧ j < columns then nextVal prev (i, j) else cur.data i j := by
  intro columns
  induction columns with
  | zero =>
      intro cur _ _ _
      exact ⟨cur, rfl, rfl, rfl, by intro i j; simp⟩
  | succ n ih =>
      intro cur hcp hrc hcc
      obtain ⟨c2, hfold, hr2, hc2, hdata⟩ := ih cur (by omega) hrc (by omega)
      have hnext := get_next_state_eq prev (row, n) hrp (by omega)
      have hset := set_state_of_lt c2 (row, n) (nextVal prev (row, n))
          (by omega) (by omega)
      refine ⟨{ c2 with data := fun i j =>
          if i = row ∧ j = n then nextVal prev (row, n) else c2.data i j }, ?_, hr2, hc2, ?_⟩
      · rw [List.range_succ, List.foldlM_append, hfold]
        simp only [Option.bind_eq_bind, Option.some_bind, List.foldlM_cons, List.foldlM_nil]
        unfold tickCell
        rw [hnext]
        simp only [Option.bind_eq_bind, Option.some_bind, hset]
        rfl
      · intro i j
        show (if i = row ∧ j = n then nextVal prev (row, n) else c2.data i j) = _
        rw [hdata i j]
        by_cases hi : i = row
        · subst hi
          by_cases hj : j = n
          · subst hj
            simp
          · by_cases hj2 : j < n
            · have hj3 : j < n + 1 := by omega
              simp [hj, hj2, hj3]
            · have hj3 : ¬ j < n + 1 := by omega
              simp [hj, hj2, hj3]
        · simp [hi]

theorem tickLoop_spec (prev : GameMatrix) :
    ∀ rows columns (cur : GameMatrix), rows ≤ prev.rows → columns ≤ prev.columns →
      rows ≤ cur.rows → columns ≤ cur.columns →
      ∃ cur2, tickLoop prev cur rows columns = some cur2 ∧
        cur2.rows = cur.rows ∧ cur2.columns = cur.columns ∧
        ∀ i j, cur2.data i j =
          if i < rows ∧ j < columns then nextVal prev (i, j) else cur.data i j := by
  intro rows
  induction rows with
  | zero =>
      intro columns cur _ _ _ _
      exact ⟨cur, rfl, rfl, rfl, by intro i j; simp⟩
  | succ n ih =>
      intro columns cur h1 h2 h3 h4
      obtain ⟨c2, hfold, hr2, hc2, hdata⟩ := ih columns cur (by omega) h2 (by omega) h4
      obtain ⟨c3, hrow, hr3, hc3, hdata3⟩ :=
        tickRowLoop_spec prev n (by omega) columns c2 h2 (by omega) (by omega)
      refine ⟨c3, ?_, by omega, by omega, ?_⟩
      · unfold tickLoop at hfold ⊢
        rw [List.range_succ, List.foldlM_append, hfold]
        simp only [Option.bind_eq_bind, Option.some_bind, List.foldlM_cons, List.foldlM_nil,
          hrow]
        rfl
      · intro i j
        rw [hdata3 i j, hdata i j]
        by_cases hi : i = n
        · subst hi
          by_cases hj : j < columns
          · simp [hj, Nat.lt_succ_self]
          · simp [hj]
        · by_cases hj : j < columns
          · by_cases hlt : i < n
            · have h6 : i < n + 1 := by omega
              simp [hi, hj, hlt, h6]
            · have h6 : ¬ i < n + 1 := by omega
              simp [hi, hj, hlt, h6]
          · simp [hi, hj]

theorem tick_master (g : GameOfLife)
    (hr : g.previous.rows = g.current.rows) (hc : g.previous.columns = g.current.columns) :
    ∃ g2, g.tick = some g2 ∧ g2.previous = g.current ∧
      g2.current.rows = g.current.rows ∧ g2.current.columns = g.current.columns ∧
      ∀ i j, g2.current.data i j =
        if i < g.current.rows ∧ j < g.current.columns
        then nextVal g.current (i, j) else g.previous.data i j := by
  obtain ⟨c2, hfold, hr2, hc2, hdata⟩ :=
    tickLoop_spec g.current g.previous.rows g.previous.columns g.previous
      (by omega) (by omega) (by omega) (by omega)
  refine ⟨⟨g.current, c2⟩, ?_, rfl, ?_, ?_, ?_⟩
  · show Option.bind (tickLoop g.current g.previous g.previous.rows g.previous.columns)
        (fun current => some (GameOfLife.mk g.current current)) =
      some (GameOfLife.mk g.current c2)
    rw [hfold]
    rfl
  · show c2.rows = g.current.rows
    omega
  · show c2.columns = g.current.columns
    omega
  · intro i j
    show c2.data i j = _
    rw [hdata i j, hr, hc]

theorem nextVal_dead_of_allDead (m : GameMatrix) (cell : Cell) (hd : AllDead m)
    (h1 : cell.1 < m.rows) (h2 : cell.2 < m.columns) :
    nextVal m cell = CellState.Dead := by
  have hcount : aliveNeighborCount m cell = 0 := by
    unfold aliveNeighborCount
    rw [List.length_eq_zero, List.filter_eq_nil_iff]
    intro s hs
    simp only [List.mem_map] at hs
    obtain ⟨p, hp, rfl⟩ := hs
    obtain ⟨hp1, hp2⟩ := mem_get_neighbor_cells cell m.rows m.columns (by omega) (by omega) p
      (by simpa [GameMatrix.shape] using hp)
    rw [hd p.1 hp1 p.2 hp2]
    decide
  unfold nextVal
  rw [hd cell.1 h1 cell.2 h2, hcount]
  simp

theorem nextVal_congr (ma mb : GameMatrix) (cell : Cell)
    (hrows : ma.rows = mb.rows) (hcols : ma.columns = mb.columns)
    (hdata : ∀ i j, i < ma.rows → j < ma.columns → ma.data i j = mb.data i j)
    (h1 : cell.1 < ma.rows) (h2 : cell.2 < ma.columns) :
    nextVal ma cell = nextVal mb cell := by
  have hshape : ma.shape = mb.shape := by
    unfold GameMatrix.shape
    rw [hrows, hcols]
  have hcount : aliveNeighborCount ma cell = aliveNeighborCount mb cell := by
    unfold aliveNeighborCount
    rw [← hshape]
    congr 1
    apply congrArg
    apply List.map_congr_left
    intro p hp
    obtain ⟨hp1, hp2⟩ := mem_get_neighbor_cells cell ma.rows ma.columns (by omega) (by omega) p
      (by simpa [GameMatrix.shape] using hp)
    exact hdata p.1 p.2 hp1 hp2
  unfold nextVal
  rw [hcount, hdata cell.1 cell.2 h1 h2]

theorem get_state_of_not_lt (m : GameMatrix) (cell : Cell)
    (h : ¬(cell.1 < m.rows ∧ cell.2 < m.columns)) : m.get_state cell = none := by
  unfold GameMatrix.get_state
  rw [if_neg h]

theorem ticksN_allDead (g : GameOfLife)
    (hr : g.previous.rows = g.current.rows) (hc : g.previous.columns = g.current.columns)
    (hd : AllDead g.current) :
    ∀ n, ∃ g2, ticksN g n = some g2 ∧
      g2.previous.rows = g2.current.rows ∧ g2.previous.columns = g2.current.columns ∧
      g2.current.rows = g.current.rows ∧ g2.current.columns = g.current.columns ∧
      AllDead g2.current := by
  intro n
  induction n with
  | zero => exact ⟨g, rfl, hr, hc, rfl, rfl, hd⟩
  | succ n ih =>
      obtain ⟨g2, hg2, h1, h2, h3, h4, hdead⟩ := ih
      obtain ⟨g3, hg3, hprev, hrows, hcols, hdata⟩ := tick_master g2 h1 h2
      refine ⟨g3, ?_, ?_, ?_, by omega, by omega, ?_⟩
      · show (ticksN g n).bind GameOfLife.tick = some g3
        rw [hg2]
        simpa using hg3
      · rw [hprev]; omega
      · rw [hprev]; omega
      · intro i hi j hj
        rw [hdata i j, if_pos ⟨by omega, by omega⟩]
        exact nextVal_dead_of_allDead g2.current (i, j) hdead (by omega) (by omega)

/-- Constructor following the specification text, for comparison with the
source: the spec demands that zero rows or zero columns be rejected at
construction with an InvalidDimensions condition (modelled as `none`).
The source constructor has no such check; this definition exists only to
state the divergence. -/
def new_spec_checked (rows columns : Nat) : Option GameOfLife :=
  if 1 ≤ rows ∧ 1 ≤ columns then some (GameOfLife.new rows columns) else none

/-! ### Claim theorems -/

/-- C1: for every simulation whose two buffers have equal shape, `tick()`
succeeds; afterwards the buffer exposed as `previous` is cell-by-cell equal
to what `current` was immediately before the call, and `current` holds, for
every in-range cell, the Life rule (`get_next_state`) applied to that prior
content. -/
theorem tick_buffer_swap (g : GameOfLife) (h : g.previous.shape = g.current.shape) :
    ∃ g2, g.tick = some g2 ∧
      (∀ cell : Cell, g2.previous.get_state cell = g.current.get_state cell) ∧
      (∀ cell : Cell, cell.1 < g.current.rows → cell.2 < g.current.columns →
        g2.current.get_state cell = g.current.get_next_state cell) := by
  have hr : g.previous.rows = g.current.rows := congrArg Prod.fst h
  have hc : g.previous.columns = g.current.columns := congrArg Prod.snd h
  obtain ⟨g2, hg2, hprev, hrows, hcols, hdata⟩ := tick_master g hr hc
  refine ⟨g2, hg2, ?_, ?_⟩
  · intro cell
    rw [hprev]
  · intro cell h1 h2
    rw [get_state_of_lt _ _ (by omega) (by omega), get_next_state_eq _ _ h1 h2,
        hdata cell.1 cell.2, if_pos ⟨h1, h2⟩]

/-- C1 witness: a concrete 2 × 2 simulation. -/
theorem tick_buffer_swap_witness :
    ∃ g2, (GameOfLife.new 2 2).tick = some g2 ∧
      (∀ cell : Cell, g2.previous.get_state cell = (GameOfLife.new 2 2).current.get_state cell) ∧
      (∀ cell : Cell, cell.1 < (GameOfLife.new 2 2).current.rows →
        cell.2 < (GameOfLife.new 2 2).current.columns →
        g2.current.get_state cell = (GameOfLife.new 2 2).current.get_next_state cell) :=
  tick_buffer_swap (GameOfLife.new 2 2) rfl

/-- C2: for every grid and every in-range cell, the next state is `Alive`
iff the cell is `Alive` with 2 or 3 alive entries among the 8 enumerated
toroidal neighbor coordinates, or `Dead` with exactly 3; otherwise `Dead`.
(The embedding of `get_next_state` is a pure function of the grid, so the
call mutates nothing.) -/
theorem get_next_state_rule (m : GameMatrix) (cell : Cell)
    (h1 : cell.1 < m.rows) (h2 : cell.2 < m.columns) :
    m.get_next_state cell =
      some (if (m.data cell.1 cell.2 = CellState.Alive ∧
                 (aliveNeighborCount m cell = 2 ∨ aliveNeighborCount m cell = 3)) ∨
               (m.data cell.1 cell.2 = CellState.Dead ∧ aliveNeighborCount m cell = 3)
            then CellState.Alive else CellState.Dead) := by
  rw [get_next_state_eq m cell h1 h2]
  congr 1
  unfold nextVal
  cases hm : m.data cell.1 cell.2 <;> simp only [hm]
  · by_cases hcond : 2 ≤ aliveNeighborCount m cell ∧ aliveNeighborCount m cell ≤ 3
    · rw [if_pos hcond, if_pos (Or.inl ⟨trivial, by omega⟩)]
    · rw [if_neg hcond, if_neg ?_]
      rintro (⟨_, hn⟩ | ⟨habs, _⟩)
      · exact hcond (by omega)
      · exact absurd habs (by decide)
  · by_cases hcond : aliveNeighborCount m cell = 3
    · rw [if_pos hcond, if_pos (Or.inr ⟨trivial, hcond⟩)]
    · rw [if_neg hcond, if_neg ?_]
      rintro (⟨habs, _⟩ | ⟨_, hn⟩)
      · exact absurd habs (by decide)
      · exact hcond hn

/-- C2 witness: the all-Dead 3 × 3 grid at its center cell. -/
theorem get_next_state_rule_witness :
    (GameMatrix.new 3 3).get_next_state (1, 1) =
      some (if ((GameMatrix.new 3 3).data 1 1 = CellState.Alive ∧
                 (aliveNeighborCount (GameMatrix.new 3 3) (1, 1) = 2 ∨
                  aliveNeighborCount (GameMatrix.new 3 3) (1, 1) = 3)) ∨
               ((GameMatrix.new 3 3).data 1 1 = CellState.Dead ∧
                 aliveNeighborCount (GameMatrix.new 3 3) (1, 1) = 3)
            then CellState.Alive else CellState.Dead) :=
  get_next_state_rule (GameMatrix.new 3 3) (1, 1) (by decide) (by decide)

/-- C3 counterexample: on a 1 × 1 grid the 8 enumerated neighbor
coordinates are all equal to the input cell (0, 0), so they are neither
pairwise distinct nor different from the input. -/
theorem neighbor_distinct_counterexample :
    get_neighbor_cells (0, 0) (1, 1) =
      [(0, 0), (0, 0), (0, 0), (0, 0), (0, 0), (0, 0), (0, 0), (0, 0)] ∧
    ¬ (get_neighbor_cells (0, 0) (1, 1)).Nodup ∧
    (0, 0) ∈ get_neighbor_cells (0, 0) (1, 1) := by decide

/-- C3 (amended): for every shape with R, C ≥ 1 and every in-range cell,
`get_neighbor_cells` returns exactly 8 coordinates, each within
[0,R)×[0,C); when moreover R ≥ 3 and C ≥ 3 the 8 coordinates are pairwise
distinct and none equals the input cell. -/
theorem neighbor_geometry (R C r c : Nat) (hR : 1 ≤ R) (hC : 1 ≤ C)
    (hr : r < R) (hc : c < C) :
    (get_neighbor_cells (r, c) (R, C)).length = 8 ∧
    (∀ p ∈ get_neighbor_cells (r, c) (R, C), p.1 < R ∧ p.2 < C) ∧
    (3 ≤ R → 3 ≤ C →
      (get_neighbor_cells (r, c) (R, C)).Nodup ∧
      (r, c) ∉ get_neighbor_cells (r, c) (R, C)) := by
  refine ⟨?_, mem_get_neighbor_cells (r, c) R C hR hC, ?_⟩
  · rw [get_neighbor_cells_eq_map]
    rfl
  · intro h3R h3C
    constructor
    · rw [get_neighbor_cells_eq_map]
      apply List.Nodup.map_on
      · intro x hx y hy hxy
        obtain ⟨hx1, hx2, hx3, hx4⟩ := neighborOffsets_bounds x hx
        obtain ⟨hy1, hy2, hy3, hy4⟩ := neighborOffsets_bounds y hy
        have e1 : get_offset r x.1 R = get_offset r y.1 R := congrArg Prod.fst hxy
        have e2 : get_offset c x.2 C = get_offset c y.2 C := congrArg Prod.snd hxy
        have q1 := get_offset_inj r R x.1 y.1 h3R hx1 hx2 hy1 hy2 e1
        have q2 := get_offset_inj c C x.2 y.2 h3C hx3 hx4 hy3 hy4 e2
        obtain ⟨x1, x2⟩ := x
        obtain ⟨y1, y2⟩ := y
        simp only [Prod.mk.injEq]
        exact ⟨q1, q2⟩
      · decide
    · rw [get_neighbor_cells_eq_map]
      intro hmem
      simp only [List.mem_map] at hmem
      obtain ⟨o, ho, heq⟩ := hmem
      obtain ⟨hb1, hb2, hb3, hb4⟩ := neighborOffsets_bounds o ho
      have e1 : get_offset r o.1 R = r := congrArg Prod.fst heq
      have e2 : get_offset c o.2 C = c := congrArg Prod.snd heq
      have hz1 : o.1 = 0 := by
        have h0 : get_offset r 0 R = r := get_offset_zero r R hr
        exact get_offset_inj r R o.1 0 h3R hb1 hb2 (by omega) (by omega) (by rw [e1, h0])
      have hz2 : o.2 = 0 := by
        have h0 : get_offset c 0 C = c := get_offset_zero c C hc
        exact get_offset_inj c C o.2 0 h3C hb3 hb4 (by omega) (by omega) (by rw [e2, h0])
      have hzz : o = ((0 : Int), (0 : Int)) := by
        obtain ⟨o1, o2⟩ := o
        simp only [Prod.mk.injEq]
        exact ⟨hz1, hz2⟩
      rw [hzz] at ho
      exact absurd ho (by decide)

/-- C3 witness: the 10 × 10 grid at cell (0, 0). -/
theorem neighbor_geometry_witness :
    (get_neighbor_cells (0, 0) (10, 10)).length = 8 ∧
    (∀ p ∈ get_neighbor_cells (0, 0) (10, 10), p.1 < 10 ∧ p.2 < 10) ∧
    (3 ≤ 10 → 3 ≤ 10 →
      (get_neighbor_cells (0, 0) (10, 10)).Nodup ∧
      (0, 0) ∉ get_neighbor_cells (0, 0) (10, 10)) :=
  neighbor_geometry 10 10 0 0 (by decide) (by decide) (by decide) (by decide)

/-- C4 counterexample: requesting a 0 × 5 grid is not rejected.  The
source constructor simply builds the degenerate simulation (its shape is
(0, 5)), whereas the constructor transcribed from the spec's words
(`new_spec_checked`) would reject it. -/
theorem new_zero_dims_not_rejected :
    (GameOfLife.new 0 5).shape = (0, 5) ∧
    (GameOfLife.new 0 5).current.rows = 0 ∧
    (GameOfLife.new 0 5).current.columns = 5 ∧
    new_spec_checked 0 5 = none := by
  exact ⟨rfl, rfl, rfl, rfl⟩

/-- C4 (amended): construction never fails.  For every requested shape —
including zero rows or zero columns — `GameOfLife::new` yields a
simulation whose two buffers have exactly the requested shape with every
in-range cell Dead; with rows ≥ 1 and columns ≥ 1 this is the claim's
successful branch, and no InvalidDimensions rejection exists. -/
theorem new_total_all_dead (rows columns : Nat) :
    (GameOfLife.new rows columns).current.shape = (rows, columns) ∧
    (GameOfLife.new rows columns).previous.shape = (rows, columns) ∧
    AllDead (GameOfLife.new rows columns).current ∧
    AllDead (GameOfLife.new rows columns).previous :=
  ⟨rfl, rfl, fun _ _ _ _ => rfl, fun _ _ _ _ => rfl⟩

/-- C5: the neighbor enumeration is exactly the row-offset-outer,
column-offset-inner double loop over {-1, 0, 1} skipping (0, 0)
(the `neighborOffsets` sequence), and on shape (10, 10) at cell (0, 0)
it returns, in order, (9,9),(9,0),(9,1),(0,9),(0,1),(1,9),(1,0),(1,1). -/
theorem neighbor_enumeration_order :
    (∀ (cell : Cell) (shape : Nat × Nat), get_neighbor_cells cell shape =
      neighborOffsets.map (fun o =>
        (get_offset cell.1 o.1 shape.1, get_offset cell.2 o.2 shape.2))) ∧
    get_neighbor_cells (0, 0) (10, 10) =
      [(9, 9), (9, 0), (9, 1), (0, 9), (0, 1), (1, 9), (1, 0), (1, 1)] :=
  ⟨get_neighbor_cells_eq_map, by decide⟩

/-- C6: for an in-range position, an offset in {-1, 0, 1} and a positive
dimension, `get_offset` computes `((position + offset) + dimension) %
dimension`, which is non-negative and below the dimension; and the three
concrete values from the spec hold. -/
theorem get_offset_spec (position : Nat) (offset : Int) (cells : Nat)
    (hpos : position < cells) (hoff : offset = -1 ∨ offset = 0 ∨ offset = 1) :
    (get_offset position offset cells : Int) =
      ((position : Int) + offset + (cells : Int)) % (cells : Int) ∧
    0 ≤ ((position : Int) + offset + (cells : Int)) % (cells : Int) ∧
    get_offset position offset cells < cells ∧
    get_offset 0 (-1) 10 = 9 ∧ get_offset 0 1 10 = 1 ∧ get_offset 5 (-1) 10 = 4 := by
  have hc : 1 ≤ cells := by omega
  have ho : -1 ≤ offset := by rcases hoff with h | h | h <;> simp [h]
  have hnz : (cells : Int) ≠ 0 := by
    have : (1 : Int) ≤ (cells : Int) := by exact_mod_cast hc
    omega
  exact ⟨get_offset_eq_emod position offset cells hc ho,
    Int.emod_nonneg _ hnz,
    get_offset_lt position offset cells hc ho,
    by decide, by decide, by decide⟩

/-- C6 witness: position 0, offset -1, dimension 10. -/
theorem get_offset_spec_witness :
    (get_offset 0 (-1) 10 : Int) = ((0 : Int) + (-1) + (10 : Int)) % (10 : Int) ∧
    0 ≤ ((0 : Int) + (-1) + (10 : Int)) % (10 : Int) ∧
    get_offset 0 (-1) 10 < 10 ∧
    get_offset 0 (-1) 10 = 9 ∧ get_offset 0 1 10 = 1 ∧ get_offset 5 (-1) 10 = 4 :=
  get_offset_spec 0 (-1) 10 (by decide) (Or.inl rfl)

/-- C7: the all-Dead state is absorbing.  For a simulation with equal
buffer shapes whose current grid is all-Dead, any number of ticks
succeeds and leaves every cell of current Dead; and `kill_em_all` makes
both buffers all-Dead, after which any number of ticks keeps the current
grid all-Dead. -/
theorem allDead_absorbing (g : GameOfLife) (h : g.previous.shape = g.current.shape) :
    (AllDead g.current →
      ∀ n, ∃ g2, ticksN g n = some g2 ∧ AllDead g2.current) ∧
    (AllDead (GameOfLife.kill_em_all g).previous ∧
     AllDead (GameOfLife.kill_em_all g).current ∧
     ∀ n, ∃ g2, ticksN (GameOfLife.kill_em_all g) n = some g2 ∧ AllDead g2.current) := by
  have hr : g.previous.rows = g.current.rows := congrArg Prod.fst h
  have hc : g.previous.columns = g.current.columns := congrArg Prod.snd h
  refine ⟨?_, fun _ _ _ _ => rfl, fun _ _ _ _ => rfl, ?_⟩
  · intro hd n
    obtain ⟨g2, hg2, _, _, _, _, hdead⟩ := ticksN_allDead g hr hc hd n
    exact ⟨g2, hg2, hdead⟩
  · intro n
    obtain ⟨g2, hg2, _, _, _, _, hdead⟩ := ticksN_allDead (GameOfLife.kill_em_all g)
      hr hc (fun _ _ _ _ => rfl) n
    exact ⟨g2, hg2, hdead⟩

/-- C7 witness: the fresh 2 × 2 simulation, three ticks. -/
theorem allDead_absorbing_witness :
    ∃ g2, ticksN (GameOfLife.new 2 2) 3 = some g2 ∧ AllDead g2.current :=
  (allDead_absorbing (GameOfLife.new 2 2) rfl).1 (fun _ _ _ _ => rfl) 3

/-- C8: `tick()` is deterministic.  Two well-formed simulations whose
current grids have the same shape and the same cell-by-cell content
(as observed through `get_state`) produce, after one tick, current grids
with the same `get_state` observation at every coordinate. -/
theorem tick_deterministic (ga gb : GameOfLife)
    (ha : ga.previous.shape = ga.current.shape)
    (hb : gb.previous.shape = gb.current.shape)
    (hshape : ga.current.shape = gb.current.shape)
    (hdata : ∀ cell : Cell, ga.current.get_state cell = gb.current.get_state cell) :
    ∃ ga2 gb2, ga.tick = some ga2 ∧ gb.tick = some gb2 ∧
      ∀ cell : Cell, ga2.current.get_state cell = gb2.current.get_state cell := by
  have hra : ga.previous.rows = ga.current.rows := congrArg Prod.fst ha
  have hca : ga.previous.columns = ga.current.columns := congrArg Prod.snd ha
  have hrb : gb.previous.rows = gb.current.rows := congrArg Prod.fst hb
  have hcb : gb.previous.columns = gb.current.columns := congrArg Prod.snd hb
  have hrs : ga.current.rows = gb.current.rows := congrArg Prod.fst hshape
  have hcs : ga.current.columns = gb.current.columns := congrArg Prod.snd hshape
  obtain ⟨ga2, hga2, _, hrows_a, hcols_a, hdata_a⟩ := tick_master ga hra hca
  obtain ⟨gb2, hgb2, _, hrows_b, hcols_b, hdata_b⟩ := tick_master gb hrb hcb
  have hdat : ∀ i j, i < ga.current.rows → j < ga.current.columns →
      ga.current.data i j = gb.current.data i j := by
    intro i j hi hj
    have hcell := hdata (i, j)
    rw [get_state_of_lt _ _ hi hj, get_state_of_lt _ _ (by omega) (by omega)] at hcell
    exact Option.some.inj hcell
  refine ⟨ga2, gb2, hga2, hgb2, ?_⟩
  intro cell
  by_cases hin : cell.1 < ga.current.rows ∧ cell.2 < ga.current.columns
  · rw [get_state_of_lt _ _ (by omega) (by omega),
        get_state_of_lt _ _ (by omega) (by omega),
        hdata_a cell.1 cell.2, if_pos ⟨hin.1, hin.2⟩,
        hdata_b cell.1 cell.2, if_pos ⟨by omega, by omega⟩]
    exact congrArg some (nextVal_congr ga.current gb.current cell hrs hcs hdat hin.1 hin.2)
  · rw [get_state_of_not_lt _ _ (by omega), get_state_of_not_lt _ _ (by omega)]

/-- C8 witness: two syntactically distinct but observationally equal
2 × 2 simulations. -/
theorem tick_deterministic_witness :
    ∃ ga2 gb2, (GameOfLife.new 2 2).tick = some ga2 ∧
      (GameOfLife.kill_em_all (GameOfLife.new 2 2)).tick = some gb2 ∧
      ∀ cell : Cell, ga2.current.get_state cell = gb2.current.get_state cell :=
  tick_deterministic (GameOfLife.new 2 2) (GameOfLife.kill_em_all (GameOfLife.new 2 2))
    rfl rfl rfl (fun _ => rfl)

/-- C9: direct `get_state`/`set_state` are strict-bounds.  On an in-range
coordinate both succeed and no wrapping is applied (the exact coordinate
is read or written); on an out-of-range coordinate both fail fast
(`none`, the embedded panic), so under the in-range precondition the
failure branch is unreachable. -/
theorem direct_access_strict (m : GameMatrix) (cell : Cell) (state : CellState) :
    (cell.1 < m.rows ∧ cell.2 < m.columns →
      m.get_state cell = some (m.data cell.1 cell.2) ∧
      m.set_state cell state = some { m with data := fun i j =>
        if i = cell.1 ∧ j = cell.2 then state else m.data i j }) ∧
    (¬(cell.1 < m.rows ∧ cell.2 < m.columns) →
      m.get_state cell = none ∧ m.set_state cell state = none) := by
  constructor
  · intro hin
    exact ⟨get_state_of_lt m cell hin.1 hin.2, set_state_of_lt m cell state hin.1 hin.2⟩
  · intro hout
    constructor
    · exact get_state_of_not_lt m cell hout
    · unfold GameMatrix.set_state
      rw [if_neg hout]

/-- C9 witness: in-range read on a 2 × 2 grid and an out-of-range read. -/
theorem direct_access_strict_witness :
    (GameMatrix.new 2 2).get_state (1, 0) = some ((GameMatrix.new 2 2).data 1 0) ∧
    (GameMatrix.new 2 2).get_state (5, 0) = none ∧
    (GameMatrix.new 2 2).set_state (5, 0) CellState.Alive = none :=
  ⟨((direct_access_strict (GameMatrix.new 2 2) (1, 0) CellState.Alive).1 (by decide)).1,
   ((direct_access_strict (GameMatrix.new 2 2) (5, 0) CellState.Alive).2 (by decide)).1,
   ((direct_access_strict (GameMatrix.new 2 2) (5, 0) CellState.Alive).2 (by decide)).2⟩

/-- C10: the free-standing helper computes exactly the count that
`get_next_state` uses internally: for every grid and every cell,
`get_next_state` factors as "bind the helper's count, bind the cell's
own state, apply the rule" — including agreement of the failure cases. -/
theorem alive_neighbor_count_refines (m : GameMatrix) (cell : Cell) :
    m.get_next_state cell = (get_alive_neighbor_count m cell).bind
      (fun alive_neighbors => (m.get_state cell).map
        (fun state => match state with
          | CellState.Alive =>
              if 2 ≤ alive_neighbors ∧ alive_neighbors ≤ 3
              then CellState.Alive else CellState.Dead
          | CellState.Dead =>
              if alive_neighbors = 3 then CellState.Alive else CellState.Dead)) := by
  unfold GameMatrix.get_next_state get_alive_neighbor_count
  cases hm : (get_neighbor_cells cell m.shape).mapM m.get_state with
  | none => rfl
  | some states =>
      cases hs : m.get_state cell with
      | none => simp [Option.bind, hs]
      | some state => cases state <;> rfl

end GameOfLifeEngine
